import Mathlib

/-!
# CyberJournal key-hierarchy and searchable-encryption engine: a verification development

This file is a shallow embedding of the CyberJournal engine
(src/cyberjournal/crypto.py, src/cyberjournal/logic.py, src/cyberjournal/db.py)
together with theorems settling the frozen claims about it.

Modelling conventions:
- Byte strings are `List Nat`; text is its sequence of Unicode code points
  (`Str`), so the Python encode/decode pairs are identities in the model.
- The external cryptographic primitives (argon2 password hashing, scrypt,
  HKDF-SHA256, HMAC-SHA256, AES-GCM) are not code of this repository.  They are
  modelled symbolically as injective, collision-free constructions (the ideal
  primitives that the spec assumes): each derivation or tag is a byte string
  that records its inputs through a length-prefixed encoding.  AES-GCM is an
  AEAD: the ciphertext carries the plaintext body plus an authentication tag
  binding key, nonce, associated data and body; decryption recomputes and
  checks the tag.
- Randomness (`secrets.token_bytes`, the argon2 salt, GCM nonces) is an
  explicitly threaded counter `g : Nat`; the n-th draw is the byte string
  `[g + n]`.
- The SQLite store is a record of row lists.  Every `db.py` function opens its
  own connection and commits before returning; correspondingly every modelled
  db operation is a total function from store to store, so state mutated
  before an exception survives it, exactly as in the source.
-/

/-- Byte strings (and decoded text) are lists of naturals. -/
abbrev Bytes : Type := List Nat

/-- Text, identified with its code points; `str` converts a literal. -/
abbrev Str : Type := Bytes

/-- Convert a Lean string literal to its code-point list. -/
def str (s : String) : Str := s.data.map Char.toNat

/-- Length-prefixed block: the basic injective building block of the
symbolic primitives. -/
def lenc (l : Bytes) : Bytes := l.length :: l

theorem lenc_append_inj {a b u v : Bytes}
    (h : lenc a ++ u = lenc b ++ v) : a = b ∧ u = v := by
  simp only [lenc, List.cons_append] at h
  injection h with hlen happ
  exact List.append_inj happ hlen

theorem lenc_inj {a b : Bytes} (h : lenc a = lenc b) : a = b := by
  simp only [lenc] at h
  injection h

/-- Modelled from the spec: the memory-hard password KDF (scrypt in the
source).  Symbolically, the derived key records password, salt and length
injectively. -/
def scrypt_kdf (password : Str) (salt : Bytes) (length : Nat) : Bytes :=
  1 :: length :: (lenc password ++ lenc salt)

theorem scrypt_kdf_inj {p p' : Str} {s s' : Bytes} {L L' : Nat}
    (h : scrypt_kdf p s L = scrypt_kdf p' s' L') : p = p' ∧ s = s' ∧ L = L' := by
  simp only [scrypt_kdf] at h
  injection h with h1 h2
  injection h2 with hL h3
  obtain ⟨hp, hs⟩ := lenc_append_inj h3
  exact ⟨hp, lenc_inj hs, hL⟩

/-- Modelled from the spec: the fast KDF (HKDF-SHA256 in the source) deriving
a subkey from key material and a context label. -/
def hkdf_derive (key_material : Bytes) (info : Bytes) (length : Nat) : Bytes :=
  2 :: length :: (lenc key_material ++ lenc info)

theorem hkdf_derive_inj {k k' i i' : Bytes} {L L' : Nat}
    (h : hkdf_derive k i L = hkdf_derive k' i' L') : k = k' ∧ i = i' ∧ L = L' := by
  simp only [hkdf_derive] at h
  injection h with h1 h2
  injection h2 with hL h3
  obtain ⟨hk, hi⟩ := lenc_append_inj h3
  exact ⟨hk, lenc_inj hi, hL⟩

/-- Modelled from the spec: keyed deterministic digest of a token under the
search key (HMAC-SHA256 in the source). -/
def hmac_token (search_key : Bytes) (token : Str) : Bytes :=
  3 :: (lenc search_key ++ lenc token)

theorem hmac_token_inj {k k' : Bytes} {t t' : Str}
    (h : hmac_token k t = hmac_token k' t') : k = k' ∧ t = t' := by
  simp only [hmac_token] at h
  injection h with h1 h2
  obtain ⟨hk, ht⟩ := lenc_append_inj h2
  exact ⟨hk, lenc_inj ht⟩

/-- Modelled from the spec: the AES-GCM authentication tag, binding key,
nonce, associated data and ciphertext body. -/
def gcmTagBytes (key nonce aad body : Bytes) : Bytes :=
  4 :: (lenc key ++ lenc nonce ++ lenc aad ++ lenc body)

theorem gcmTagBytes_inj {k k' n n' a a' b b' : Bytes}
    (h : gcmTagBytes k n a b = gcmTagBytes k' n' a' b') :
    k = k' ∧ n = n' ∧ a = a' ∧ b = b' := by
  simp only [gcmTagBytes, List.append_assoc] at h
  injection h with h0 h1
  obtain ⟨hk, h2⟩ := lenc_append_inj h1
  obtain ⟨hn, h3⟩ := lenc_append_inj h2
  obtain ⟨ha, h4⟩ := lenc_append_inj h3
  exact ⟨hk, hn, ha, lenc_inj h4⟩

theorem gcmTagBytes_length (key nonce aad body : Bytes) :
    (gcmTagBytes key nonce aad body).length =
      5 + key.length + nonce.length + aad.length + body.length := by
  simp [gcmTagBytes, lenc]
  omega

/-- Error taxonomy of the spec (section 7); each raise site of the source is
mapped to its taxonomy kind: ValueError for missing input maps to
`validationError`, ValueError on lookup to `userNotFound`, the sqlite UNIQUE
violation to `duplicateUser`, password or security-answer verify mismatch to
`authenticationFailure`, and the AEAD InvalidTag of field decryption to
`decryptionFailure`. -/
inductive Err : Type where
  | validationError : Err
  | userNotFound : Err
  | duplicateUser : Err
  | authenticationFailure : Err
  | decryptionFailure : Err
deriving DecidableEq

deriving instance DecidableEq for Except

/-- `crypto.aesgcm_encrypt`: fresh nonce from the entropy counter, then
AEAD-encrypt.  Returns ((nonce, ciphertext), next counter).  The ciphertext
is the body length, the body, and the authentication tag. -/
def aesgcm_encrypt (key : Bytes) (plaintext : Bytes) (aad : Bytes) (g : Nat) :
    (Bytes × Bytes) × Nat :=
  let nonce : Bytes := [g]
  ((nonce, plaintext.length :: (plaintext ++ gcmTagBytes key nonce aad plaintext)), g + 1)

/-- `crypto.aesgcm_decrypt`: split the ciphertext into body and tag, recompute
the tag and compare; tag mismatch is the AEAD InvalidTag failure. -/
def aesgcm_decrypt (key : Bytes) (nonce : Bytes) (ciphertext : Bytes) (aad : Bytes) :
    Except Err Bytes :=
  match ciphertext with
  | [] => .error .decryptionFailure
  | n :: rest =>
    let body := rest.take n
    let tag := rest.drop n
    if tag = gcmTagBytes key nonce aad body then .ok body
    else .error .decryptionFailure

theorem aesgcm_roundtrip (key plaintext aad : Bytes) (g : Nat) :
    aesgcm_decrypt key ((aesgcm_encrypt key plaintext aad g).1.1)
      ((aesgcm_encrypt key plaintext aad g).1.2) aad = .ok plaintext := by
  simp [aesgcm_encrypt, aesgcm_decrypt, List.take_left, List.drop_left]

/-- Modelled from the spec: the slow password-hashing function (argon2 in the
source).  A hash records the password together with the random salt drawn at
hashing time; verification is the ideal collision-free check. -/
structure PwdHash : Type where
  pw : Str
  salt : Nat
deriving DecidableEq

/-- `PH.hash`: salt is drawn from the entropy counter by the caller. -/
def PH_hash (password : Str) (salt : Nat) : PwdHash := ⟨password, salt⟩

/-- `PH.verify`: succeeds exactly when the password matches. -/
def PH_verify (h : PwdHash) (password : Str) : Bool := h.pw == password

theorem PH_verify_hash (password : Str) (salt : Nat) :
    PH_verify (PH_hash password salt) password = true := by
  simp [PH_verify, PH_hash]

/-- `crypto.HKDF_INFO_ENC`. -/
def HKDF_INFO_ENC : Bytes := str "cyberjournal/enc-key"

/-- `crypto.HKDF_INFO_HMAC`. -/
def HKDF_INFO_HMAC : Bytes := str "cyberjournal/search-key"

/-- The wrap-key context label used in logic.py. -/
def WRAP_INFO : Bytes := str "wrap-key"

/-- Lowercasing one code point, the ASCII fragment of Python str.lower. -/
def lowerCh (c : Nat) : Nat := if 65 ≤ c ∧ c ≤ 90 then c + 32 else c

/-- Word characters of the token splitter: the ASCII fragment of the regex
class that is the complement of the source pattern `[\W_]+`, that is,
alphanumerics (the underscore is a separator in the source). -/
def isWordCh (c : Nat) : Bool :=
  (48 ≤ c ∧ c ≤ 57) ∨ (65 ≤ c ∧ c ≤ 90) ∨ (97 ≤ c ∧ c ≤ 122)

/-- Whitespace code points, the ASCII fragment of Python str.strip. -/
def isSpaceCh (c : Nat) : Bool :=
  c = 32 ∨ c = 9 ∨ c = 10 ∨ c = 13 ∨ c = 11 ∨ c = 12

/-- Python `not s.strip()`: the text is empty or whitespace-only. -/
def isBlank (s : Str) : Bool := s.all isSpaceCh

/-- Accumulator-based splitter: collect maximal runs of word characters,
dropping empty fragments (the source splits on the separator regex and
filters empties, which yields exactly the nonempty maximal word runs). -/
def runs (acc : Bytes) : List Nat → List Str
  | [] => if acc = [] then [] else [acc.reverse]
  | c :: cs =>
    if isWordCh c then runs (c :: acc) cs
    else if acc = [] then runs [] cs else acc.reverse :: runs [] cs

/-- `crypto.normalize_tokens`: lowercase, split on non-word characters, drop
empty fragments. -/
def normalize_tokens (text : Str) : List Str := runs [] (text.map lowerCh)

theorem lowerCh_idem (c : Nat) : lowerCh (lowerCh c) = lowerCh c := by
  simp only [lowerCh]
  split
  · rename_i h
    rw [if_neg]
    omega
  · rfl

theorem isWordCh_lowerCh (c : Nat) : isWordCh (lowerCh c) = isWordCh c := by
  simp only [lowerCh, isWordCh]
  split
  · rename_i h
    simp only [decide_eq_true_eq, Bool.or_eq_true, decide_eq_decide]
    constructor
    · intro hx
      omega
    · intro hx
      omega
  · rfl

/-- A single trailing separator does not change the token list. -/
theorem runs_append_sep (b : Nat) (hb : isWordCh b = false) :
    ∀ (s : List Nat) (acc : Bytes), runs acc (s ++ [b]) = runs acc s := by
  intro s
  induction s with
  | nil =>
    intro acc
    show runs acc [b] = runs acc []
    by_cases h : acc = []
    · subst h
      simp [runs, hb]
    · simp [runs, hb, h]
  | cons c cs ih =>
    intro acc
    show runs acc (c :: (cs ++ [b])) = runs acc (c :: cs)
    by_cases hc : isWordCh c
    · simp only [runs, hc, if_true]
      exact ih _
    · simp only [runs, hc, Bool.false_eq_true, if_false]
      by_cases h : acc = []
      · rw [if_pos h, if_pos h]
        exact ih []
      · rw [if_neg h, if_neg h, ih []]

/-- Splitting at an internal separator: the tokens decompose into the tokens
before it and the tokens after it. -/
theorem runs_sep_split (b : Nat) (hb : isWordCh b = false) :
    ∀ (s t : List Nat) (acc : Bytes),
      runs acc (s ++ b :: t) = runs acc (s ++ [b]) ++ runs [] t := by
  intro s
  induction s with
  | nil =>
    intro t acc
    show runs acc (b :: t) = runs acc [b] ++ runs [] t
    by_cases h : acc = []
    · subst h
      simp [runs, hb]
    · simp [runs, hb, h]
  | cons c cs ih =>
    intro t acc
    show runs acc (c :: (cs ++ b :: t)) = runs acc (c :: (cs ++ [b])) ++ runs [] t
    by_cases hc : isWordCh c
    · simp only [runs, hc, if_true]
      exact ih _ _
    · simp only [runs, hc, Bool.false_eq_true, if_false]
      by_cases h : acc = []
      · rw [if_pos h, if_pos h]
        exact ih _ []
      · rw [if_neg h, if_neg h, ih _ []]
        simp

/-- Replacing a nonempty all-separator segment: the tokens are those of the
two sides, independently of the segment. -/
theorem runs_all_sep_split : ∀ (p : List Nat), (∀ c ∈ p, isWordCh c = false) →
    p ≠ [] → ∀ (s t : List Nat),
    runs [] (s ++ p ++ t) = runs [] s ++ runs [] t := by
  intro p
  induction p with
  | nil =>
    intro _ hne
    exact absurd rfl hne
  | cons b q ih =>
    intro hp hne s t
    have hb : isWordCh b = false := hp b (List.mem_cons_self b q)
    by_cases hq : q = []
    · subst hq
      have h1 := runs_sep_split b hb s t []
      rw [runs_append_sep b hb s] at h1
      simpa using h1
    · have hq' : ∀ c ∈ q, isWordCh c = false := by
        intro c hc
        exact hp c (List.mem_cons_of_mem b hc)
      have step : s ++ (b :: q) ++ t = s ++ b :: (q ++ t) := by simp
      rw [step, runs_sep_split b hb s (q ++ t) [], runs_append_sep b hb s]
      have h2 := ih hq' hq [] t
      simp only [List.nil_append] at h2
      rw [h2]
      simp [runs]

/-- The splitter never emits an empty token. -/
theorem runs_ne_nil : ∀ (l : List Nat) (acc : Bytes) (t : Str),
    t ∈ runs acc l → t ≠ [] := by
  intro l
  induction l with
  | nil =>
    intro acc t ht
    simp only [runs] at ht
    by_cases h : acc = []
    · rw [if_pos h] at ht
      simp at ht
    · rw [if_neg h] at ht
      simp only [List.mem_singleton] at ht
      subst ht
      simpa using h
  | cons c cs ih =>
    intro acc t ht
    simp only [runs] at ht
    by_cases hc : isWordCh c
    · rw [if_pos hc] at ht
      exact ih _ _ ht
    · rw [if_neg hc] at ht
      by_cases h : acc = []
      · rw [if_pos h] at ht
        exact ih _ _ ht
      · rw [if_neg h] at ht
        rcases List.mem_cons.mp ht with h1 | h1
        · subst h1
          simpa using h
        · exact ih _ _ h1

theorem normalize_tokens_ne_nil (s : Str) (t : Str)
    (ht : t ∈ normalize_tokens s) : t ≠ [] :=
  runs_ne_nil _ _ _ ht

/-- Lowercasing the input does not change the tokens. -/
theorem normalize_tokens_lower (s : Str) :
    normalize_tokens (s.map lowerCh) = normalize_tokens s := by
  simp only [normalize_tokens, List.map_map]
  congr 1
  apply List.map_congr_left
  intro c _
  exact lowerCh_idem c

theorem map_lowerCh_sep {p : Str} (hp : ∀ c ∈ p, isWordCh c = false) :
    ∀ c ∈ p.map lowerCh, isWordCh c = false := by
  intro c hc
  obtain ⟨d, hd, rfl⟩ := List.mem_map.mp hc
  rw [isWordCh_lowerCh]
  exact hp d hd

/-- Tokens of a text split at a nonempty all-separator segment decompose into
the tokens of the two sides, independently of the segment content. -/
theorem normalize_tokens_split (s₁ s₂ p : Str)
    (hp : ∀ c ∈ p, isWordCh c = false) (hpne : p ≠ []) :
    normalize_tokens (s₁ ++ p ++ s₂) = normalize_tokens s₁ ++ normalize_tokens s₂ := by
  simp only [normalize_tokens, List.map_append]
  exact runs_all_sep_split (p.map lowerCh) (map_lowerCh_sep hp)
    (by simpa using hpne) _ _

/-- Replacing one nonempty all-separator segment by another does not change
the tokens. -/
theorem normalize_tokens_sep_replace (s₁ s₂ p q : Str)
    (hp : ∀ c ∈ p, isWordCh c = false) (hq : ∀ c ∈ q, isWordCh c = false)
    (hpne : p ≠ []) (hqne : q ≠ []) :
    normalize_tokens (s₁ ++ p ++ s₂) = normalize_tokens (s₁ ++ q ++ s₂) := by
  rw [normalize_tokens_split s₁ s₂ p hp hpne, normalize_tokens_split s₁ s₂ q hq hqne]

/-- A trailing all-separator segment does not change the tokens. -/
theorem normalize_tokens_append_sep (s p : Str)
    (hp : ∀ c ∈ p, isWordCh c = false) :
    normalize_tokens (s ++ p) = normalize_tokens s := by
  by_cases hpe : p = []
  · subst hpe
    simp
  · have h := normalize_tokens_split s [] p hp hpe
    simp only [List.append_nil] at h
    rw [h]
    simp [normalize_tokens, runs]

/-- A leading all-separator segment does not change the tokens. -/
theorem normalize_tokens_sep_append (s p : Str)
    (hp : ∀ c ∈ p, isWordCh c = false) :
    normalize_tokens (p ++ s) = normalize_tokens s := by
  by_cases hpe : p = []
  · subst hpe
    simp
  · have h := normalize_tokens_split [] s p hp hpe
    simp only [List.nil_append] at h
    rw [h]
    simp [normalize_tokens, runs]


/-- `crypto.SessionKeys`: decrypted and derived keys bound to an
authenticated user session. -/
structure SessionKeys : Type where
  user_id : Nat
  username : Str
  dek : Bytes
  enc_key : Bytes
  search_key : Bytes
deriving DecidableEq

/-- A row of the `users` table (db.py schema). -/
structure UserRow : Type where
  id : Nat
  username : Str
  pwd_hash : PwdHash
  kek_salt : Bytes
  dek_wrapped : Bytes
  dek_wrap_nonce : Bytes
  security_question : Str
  security_answer_hash : PwdHash
  created_at : Str
deriving DecidableEq

/-- A row of the `entries` table (db.py schema); the map preview columns are
nullable. -/
structure EntryRow : Type where
  id : Nat
  user_id : Nat
  created_at : Str
  title_nonce : Bytes
  title_ct : Bytes
  body_nonce : Bytes
  body_ct : Bytes
  map_nonce : Option Bytes
  map_ct : Option Bytes
  map_format : Option Str
deriving DecidableEq

/-- The durable SQLite store: the three tables plus the AUTOINCREMENT
counters for the two row-id sequences. -/
structure Store : Type where
  users : List UserRow
  entries : List EntryRow
  entry_terms : List (Nat × Bytes)
  next_user_id : Nat
  next_entry_id : Nat
deriving DecidableEq

/-- `db.get_user_by_username`: first row matching the unique username. -/
def get_user_by_username (st : Store) (username : Str) : Option UserRow :=
  st.users.find? (fun u => u.username == username)

/-- `db.insert_user`: INSERT into users; the UNIQUE(username) constraint
makes a duplicate username fail (sqlite IntegrityError, the DuplicateUser of
the taxonomy) without changing the table. -/
def insert_user (st : Store) (username : Str) (pwd_hash : PwdHash)
    (kek_salt dek_wrapped dek_wrap_nonce : Bytes)
    (security_question : Str) (security_answer_hash : PwdHash)
    (created_at : Str) : Except Err Store :=
  if st.users.any (fun u => u.username == username) then .error .duplicateUser
  else .ok { st with
    users := st.users ++ [{
      id := st.next_user_id
      username := username
      pwd_hash := pwd_hash
      kek_salt := kek_salt
      dek_wrapped := dek_wrapped
      dek_wrap_nonce := dek_wrap_nonce
      security_question := security_question
      security_answer_hash := security_answer_hash
      created_at := created_at }]
    next_user_id := st.next_user_id + 1 }

/-- `db.update_user_credentials`: UPDATE the four credential fields of the
rows matching the id, leaving every other field and row unchanged. -/
def update_user_credentials (st : Store) (user_id : Nat) (pwd_hash : PwdHash)
    (kek_salt dek_wrapped dek_wrap_nonce : Bytes) : Store :=
  { st with users := st.users.map (fun u =>
      if u.id = user_id then
        { u with
          pwd_hash := pwd_hash
          kek_salt := kek_salt
          dek_wrapped := dek_wrapped
          dek_wrap_nonce := dek_wrap_nonce }
      else u) }

/-- `db.insert_entry_row`: INSERT an entry row and return the fresh rowid. -/
def insert_entry_row (st : Store) (user_id : Nat) (created_at : Str)
    (t_nonce t_ct b_nonce b_ct : Bytes)
    (m_nonce m_ct : Option Bytes) (m_fmt : Str) : Nat × Store :=
  (st.next_entry_id, { st with
    entries := st.entries ++ [{
      id := st.next_entry_id
      user_id := user_id
      created_at := created_at
      title_nonce := t_nonce
      title_ct := t_ct
      body_nonce := b_nonce
      body_ct := b_ct
      map_nonce := m_nonce
      map_ct := m_ct
      map_format := some m_fmt }]
    next_entry_id := st.next_entry_id + 1 })

/-- One INSERT OR IGNORE under the UNIQUE(entry_id, term_hash) constraint. -/
def insertTermRow (rows : List (Nat × Bytes)) (p : Nat × Bytes) :
    List (Nat × Bytes) :=
  if p ∈ rows then rows else rows ++ [p]

/-- `db.insert_entry_terms`: bulk INSERT OR IGNORE of blind-index rows. -/
def insert_entry_terms (st : Store) (pairs : List (Nat × Bytes)) : Store :=
  { st with entry_terms := pairs.foldl insertTermRow st.entry_terms }

/-- Strict byte-wise lexicographic order on byte strings: how SQLite compares
TEXT values (memcmp, a proper prefix ranks smaller). -/
def lexLT : List Nat → List Nat → Bool
  | [], [] => false
  | [], _ :: _ => true
  | _ :: _, [] => false
  | a :: as, b :: bs => if a < b then true else if b < a then false else lexLT as bs

/-- Stable insertion into a list sorted by created_at descending. -/
def insertRowDesc (e : EntryRow) : List EntryRow → List EntryRow
  | [] => [e]
  | f :: fs =>
    if lexLT e.created_at f.created_at then f :: insertRowDesc e fs
    else e :: f :: fs

/-- Stable sort by created_at descending (SQLite leaves the order of equal
keys unspecified; the stable order is one admissible choice and no claim
depends on ties). -/
def sortRowsDesc : List EntryRow → List EntryRow
  | [] => []
  | e :: es => insertRowDesc e (sortRowsDesc es)

/-- `db.list_entry_rows_for_user`: all entry rows of one user, ORDER BY
created_at DESC. -/
def list_entry_rows_for_user (st : Store) (user_id : Nat) : List EntryRow :=
  sortRowsDesc (st.entries.filter (fun e => e.user_id == user_id))

/-- `db.get_entry_ids_for_term`: the entry ids indexed under one digest. -/
def get_entry_ids_for_term (st : Store) (term_hash : Bytes) : List Nat :=
  (st.entry_terms.filter (fun p => p.2 == term_hash)).map (fun p => p.1)

/-- `db.update_entry_row`: UPDATE title and body fields of the rows matching
id and owner. -/
def update_entry_row (st : Store) (entry_id user_id : Nat)
    (title_nonce title_ct body_nonce body_ct : Bytes) : Store :=
  { st with entries := st.entries.map (fun e =>
      if e.id = entry_id ∧ e.user_id = user_id then
        { e with
          title_nonce := title_nonce
          title_ct := title_ct
          body_nonce := body_nonce
          body_ct := body_ct }
      else e) }

/-- `db.update_entry_row_with_map`: UPDATE title, body and map fields of the
rows matching id and owner. -/
def update_entry_row_with_map (st : Store) (entry_id user_id : Nat)
    (title_nonce title_ct body_nonce body_ct : Bytes)
    (map_nonce map_ct : Option Bytes) (map_format : Str) : Store :=
  { st with entries := st.entries.map (fun e =>
      if e.id = entry_id ∧ e.user_id = user_id then
        { e with
          title_nonce := title_nonce
          title_ct := title_ct
          body_nonce := body_nonce
          body_ct := body_ct
          map_nonce := map_nonce
          map_ct := map_ct
          map_format := some map_format }
      else e) }

/-- `db.delete_entries_for_user`: DELETE all entries of one user.  The
schema declares ON DELETE CASCADE and the docstring expects the term rows to
cascade, but this function opens a fresh connection that never executes
PRAGMA foreign_keys=ON (off by default in SQLite, per connection; only
init_db and migrate_db enable it, on their own short-lived connections), so
the DELETE does not cascade and the term rows of the deleted entries stay in
place. -/
def delete_entries_for_user (st : Store) (user_id : Nat) : Store :=
  { st with entries := st.entries.filter (fun e => ¬ e.user_id = user_id) }

/-- `db.clear_entry_terms`: DELETE the term rows of one entry. -/
def clear_entry_terms (st : Store) (entry_id : Nat) : Store :=
  { st with entry_terms := st.entry_terms.filter (fun p => ¬ p.1 = entry_id) }

/-- Python truthiness of an optional byte string (None and b are falsy,
where b is empty). -/
def optTruthy : Option Bytes → Bool
  | none => false
  | some m => !m.isEmpty

/-- `logic.register_user`: hash the password, validate question and answer,
hash the answer, generate DEK and KEK salt, derive KEK and wrap key, wrap
the DEK, insert the user row.  `created_at` stands for the wall clock read
at the start of the call. -/
def register_user (st : Store) (g : Nat)
    (username password security_question security_answer : Str)
    (created_at : Str) : (Except Err Unit) × Store × Nat :=
  let pwd_hash := PH_hash password g
  if isBlank security_question ∨ isBlank security_answer then
    (.error .validationError, st, g + 1)
  else
    let answer_hash := PH_hash security_answer (g + 1)
    let dek : Bytes := [g + 2]
    let kek_salt : Bytes := [g + 3]
    let kek := scrypt_kdf password kek_salt 32
    let wrap_key := hkdf_derive kek WRAP_INFO 32
    let rw := aesgcm_encrypt wrap_key dek username (g + 4)
    match insert_user st username pwd_hash kek_salt rw.1.2 rw.1.1
        security_question answer_hash created_at with
    | .error er => (.error er, st, rw.2)
    | .ok st1 => (.ok (), st1, rw.2)

/-- `logic.login_user`: look up the user, verify the password hash, derive
the KEK and wrap key, unwrap the DEK, derive the two session subkeys. -/
def login_user (st : Store) (username password : Str) : Except Err SessionKeys :=
  match get_user_by_username st username with
  | none => .error .userNotFound
  | some row =>
    if ¬ PH_verify row.pwd_hash password then .error .authenticationFailure
    else
      let kek := scrypt_kdf password row.kek_salt 32
      let wrap_key := hkdf_derive kek WRAP_INFO 32
      match aesgcm_decrypt wrap_key row.dek_wrap_nonce row.dek_wrapped row.username with
      | .error er => .error er
      | .ok dek =>
        .ok { user_id := row.id
              username := row.username
              dek := dek
              enc_key := hkdf_derive dek HKDF_INFO_ENC 32
              search_key := hkdf_derive dek HKDF_INFO_HMAC 32 }

/-- The two session subkeys derived from a DEK, as computed at the end of
`logic.login_user` with the two fixed context labels. -/
def derive_session_keys (dek : Bytes) : Bytes × Bytes :=
  (hkdf_derive dek HKDF_INFO_ENC 32, hkdf_derive dek HKDF_INFO_HMAC 32)

/-- The map-preview branch of the migration loop of
`logic.change_password_logged_in`: if the entry has a (truthy) encrypted map,
decrypt it under the old key and re-encrypt under the new one. -/
def migrate_map (uname : Str) (old_enc new_enc : Bytes) (e : EntryRow) (g : Nat) :
    Except Err ((Option Bytes × Option Bytes) × Nat) :=
  if optTruthy e.map_ct then
    match aesgcm_decrypt old_enc (e.map_nonce.getD []) (e.map_ct.getD []) uname with
    | .error er => .error er
    | .ok map_text =>
      let r := aesgcm_encrypt new_enc map_text uname g
      .ok ((some r.1.1, some r.1.2), r.2)
  else .ok ((none, none), g)

/-- Python `entry["map_format"] or "ascii"`. -/
def mapFormatOrAscii (o : Option Str) : Str :=
  match o with
  | some f => if f = [] then str "ascii" else f
  | none => str "ascii"

/-- The per-entry migration loop of `logic.change_password_logged_in`,
operating on the snapshot of the user entry rows: decrypt each field under
the old encryption key, re-encrypt under the new one with fresh nonces,
write the row, rebuild its blind index under the new search key.  Each write
commits on its own (one connection per db call), so on failure the store of
the already-processed iterations is returned as is. -/
def migrate_entries (uname : Str) (uid : Nat) (old_enc new_enc new_search : Bytes) :
    List EntryRow → Store → Nat → (Except Err Unit) × Store × Nat
  | [], st, g => (.ok (), st, g)
  | e :: rest, st, g =>
    match aesgcm_decrypt old_enc e.title_nonce e.title_ct uname with
    | .error er => (.error er, st, g)
    | .ok title =>
      match aesgcm_decrypt old_enc e.body_nonce e.body_ct uname with
      | .error er => (.error er, st, g)
      | .ok body =>
        match migrate_map uname old_enc new_enc e g with
        | .error er => (.error er, st, g)
        | .ok mm =>
          let rt := aesgcm_encrypt new_enc title uname mm.2
          let rb := aesgcm_encrypt new_enc body uname rt.2
          let st1 := update_entry_row_with_map st e.id uid rt.1.1 rt.1.2
            rb.1.1 rb.1.2 mm.1.1 mm.1.2 (mapFormatOrAscii e.map_format)
          let st2 := clear_entry_terms st1 e.id
          let terms := (normalize_tokens title ++ normalize_tokens body).dedup
          let pairs := terms.map (fun t => (e.id, hmac_token new_search t))
          let st3 := insert_entry_terms st2 pairs
          migrate_entries uname uid old_enc new_enc new_search rest st3 rb.2

/-- `logic.change_password_logged_in`: validate inputs, re-verify the current
password, back up the database file (a file-system copy, no store change),
generate the new DEK and credentials, migrate every entry of the user, and
only then swap the credential row. -/
def change_password_logged_in (st : Store) (g : Nat) (sess : SessionKeys)
    (current_password new_password : Str) : (Except Err SessionKeys) × Store × Nat :=
  if current_password = [] then (.error .validationError, st, g)
  else if new_password = [] then (.error .validationError, st, g)
  else
    match get_user_by_username st sess.username with
    | none => (.error .userNotFound, st, g)
    | some row =>
      if ¬ PH_verify row.pwd_hash current_password then
        (.error .authenticationFailure, st, g)
      else
        let new_dek : Bytes := [g]
        let new_pwd_hash := PH_hash new_password (g + 1)
        let new_kek_salt : Bytes := [g + 2]
        let new_kek := scrypt_kdf new_password new_kek_salt 32
        let new_wrap_key := hkdf_derive new_kek WRAP_INFO 32
        let rw := aesgcm_encrypt new_wrap_key new_dek sess.username (g + 3)
        let new_enc_key := hkdf_derive new_dek HKDF_INFO_ENC 32
        let new_search_key := hkdf_derive new_dek HKDF_INFO_HMAC 32
        let rows := list_entry_rows_for_user st sess.user_id
        match migrate_entries sess.username sess.user_id sess.enc_key
            new_enc_key new_search_key rows st rw.2 with
        | (.error er, st1, g1) => (.error er, st1, g1)
        | (.ok _, st1, g1) =>
          let st2 := update_user_credentials st1 sess.user_id new_pwd_hash
            new_kek_salt rw.1.2 rw.1.1
          (.ok { user_id := sess.user_id
                 username := sess.username
                 dek := new_dek
                 enc_key := new_enc_key
                 search_key := new_search_key }, st2, g1)

/-- `logic.reset_password_with_security_answer`: validate inputs, look up the
user, verify the security answer, back up the database file, delete all the
user entries (terms cascade), generate and wrap a fresh DEK under the new
password, store the new credentials. -/
def reset_password_with_security_answer (st : Store) (g : Nat)
    (username security_answer new_password : Str) : (Except Err Unit) × Store × Nat :=
  if security_answer = [] then (.error .validationError, st, g)
  else if new_password = [] then (.error .validationError, st, g)
  else
    match get_user_by_username st username with
    | none => (.error .userNotFound, st, g)
    | some row =>
      if ¬ PH_verify row.security_answer_hash security_answer then
        (.error .authenticationFailure, st, g)
      else
        let st1 := delete_entries_for_user st row.id
        let new_dek : Bytes := [g]
        let new_pwd_hash := PH_hash new_password (g + 1)
        let new_kek_salt : Bytes := [g + 2]
        let new_kek := scrypt_kdf new_password new_kek_salt 32
        let new_wrap_key := hkdf_derive new_kek WRAP_INFO 32
        let rw := aesgcm_encrypt new_wrap_key new_dek username (g + 3)
        let st2 := update_user_credentials st1 row.id new_pwd_hash
          new_kek_salt rw.1.2 rw.1.1
        (.ok (), st2, rw.2)

/-- `logic.update_entry`: re-encrypt title and body with fresh nonces, update
the row (matching id and owner), clear the entry terms and rebuild them from
the new plaintext.  The source wraps the final insert in an emptiness guard
that is a no-op (inserting no rows changes nothing); the fold here is its
exact semantics. -/
def update_entry (st : Store) (g : Nat) (sess : SessionKeys) (entry_id : Nat)
    (new_title new_body : Str) : (Except Err Unit) × Store × Nat :=
  let rt := aesgcm_encrypt sess.enc_key new_title sess.username g
  let rb := aesgcm_encrypt sess.enc_key new_body sess.username rt.2
  let st1 := update_entry_row st entry_id sess.user_id rt.1.1 rt.1.2 rb.1.1 rb.1.2
  let st2 := clear_entry_terms st1 entry_id
  let terms := (normalize_tokens new_title ++ normalize_tokens new_body).dedup
  let pairs := terms.map (fun t => (entry_id, hmac_token sess.search_key t))
  (.ok (), insert_entry_terms st2 pairs, rb.2)

/-- Python set intersection of the fetched id lists: members of the first
set that belong to every other set. -/
def interIds : List (List Nat) → List Nat
  | [] => []
  | s :: rest => s.dedup.filter (fun x => rest.all (fun t => t.contains x))

/-- Insert into a descending-sorted list. -/
def insertDesc (x : Nat) : List Nat → List Nat
  | [] => [x]
  | y :: ys => if y ≤ x then x :: y :: ys else y :: insertDesc x ys

/-- Python `sorted(s, reverse=True)`: sort descending. -/
def sortDesc : List Nat → List Nat
  | [] => []
  | x :: xs => insertDesc x (sortDesc xs)

/-- `logic.search_entries`: tokenize the query, drop empty tokens (a no-op,
the tokenizer already drops them), and, unless no token remains, intersect
the id sets fetched for the per-token digests and sort descending.  The
source guards the final sort on the id-set list being nonempty, which holds
exactly when a token exists. -/
def search_entries (st : Store) (sess : SessionKeys) (query : Str) : List Nat :=
  let tokens := (normalize_tokens query).filter (fun t => !t.isEmpty)
  if tokens.isEmpty then []
  else
    let id_sets := tokens.map
      (fun t => get_entry_ids_for_term st (hmac_token sess.search_key t))
    sortDesc (interIds id_sets)

theorem mem_insertDesc (x a : Nat) : ∀ (l : List Nat),
    (a ∈ insertDesc x l ↔ a = x ∨ a ∈ l) := by
  intro l
  induction l with
  | nil => simp [insertDesc]
  | cons y ys ih =>
    simp only [insertDesc]
    by_cases h : y ≤ x
    · rw [if_pos h]
      simp [or_comm, or_assoc, or_left_comm]
    · rw [if_neg h]
      simp only [List.mem_cons, ih]
      tauto

theorem pairwise_insertDesc (x : Nat) : ∀ (l : List Nat),
    l.Pairwise (fun a b => b ≤ a) → (insertDesc x l).Pairwise (fun a b => b ≤ a) := by
  intro l
  induction l with
  | nil =>
    intro _
    simp [insertDesc]
  | cons y ys ih =>
    intro h
    rw [List.pairwise_cons] at h
    obtain ⟨hy, hys⟩ := h
    simp only [insertDesc]
    by_cases hle : y ≤ x
    · rw [if_pos hle]
      rw [List.pairwise_cons]
      constructor
      · intro z hz
        rcases List.mem_cons.mp hz with rfl | hz'
        · exact hle
        · exact le_trans (hy z hz') hle
      · rw [List.pairwise_cons]
        exact ⟨hy, hys⟩
    · rw [if_neg hle]
      rw [List.pairwise_cons]
      constructor
      · intro z hz
        rcases (mem_insertDesc x z ys).mp hz with rfl | hz'
        · omega
        · exact hy z hz'
      · exact ih hys

theorem nodup_insertDesc (x : Nat) : ∀ (l : List Nat),
    x ∉ l → l.Nodup → (insertDesc x l).Nodup := by
  intro l
  induction l with
  | nil =>
    intro _ _
    simp [insertDesc]
  | cons y ys ih =>
    intro hx h
    rw [List.nodup_cons] at h
    obtain ⟨hy, hys⟩ := h
    have hxy : ¬ x = y := fun he => hx (he ▸ List.mem_cons_self y ys)
    have hxys : x ∉ ys := fun he => hx (List.mem_cons_of_mem y he)
    simp only [insertDesc]
    by_cases hle : y ≤ x
    · rw [if_pos hle]
      rw [List.nodup_cons]
      refine ⟨?_, ?_⟩
      · intro hmem
        rcases List.mem_cons.mp hmem with he | he
        · exact hxy he
        · exact hxys he
      · rw [List.nodup_cons]
        exact ⟨hy, hys⟩
    · rw [if_neg hle]
      rw [List.nodup_cons]
      refine ⟨?_, ih hxys hys⟩
      intro hmem
      rcases (mem_insertDesc x y ys).mp hmem with he | he
      · exact hxy he.symm
      · exact hy he

theorem mem_sortDesc (a : Nat) : ∀ (l : List Nat), (a ∈ sortDesc l ↔ a ∈ l) := by
  intro l
  induction l with
  | nil => simp [sortDesc]
  | cons x xs ih =>
    simp only [sortDesc, mem_insertDesc, ih, List.mem_cons]

theorem pairwise_sortDesc : ∀ (l : List Nat),
    (sortDesc l).Pairwise (fun a b => b ≤ a) := by
  intro l
  induction l with
  | nil => simp [sortDesc]
  | cons x xs ih => exact pairwise_insertDesc x (sortDesc xs) ih

theorem nodup_sortDesc : ∀ (l : List Nat), l.Nodup → (sortDesc l).Nodup := by
  intro l
  induction l with
  | nil =>
    intro _
    simp [sortDesc]
  | cons x xs ih =>
    intro h
    rw [List.nodup_cons] at h
    exact nodup_insertDesc x (sortDesc xs)
      (fun hm => h.1 ((mem_sortDesc x xs).mp hm)) (ih h.2)

theorem mem_interIds (x : Nat) (s : List Nat) (rest : List (List Nat)) :
    x ∈ interIds (s :: rest) ↔ x ∈ s ∧ ∀ t ∈ rest, x ∈ t := by
  simp only [interIds, List.mem_filter, List.mem_dedup, List.all_eq_true]
  constructor
  · intro h
    refine ⟨h.1, fun t ht => ?_⟩
    have := h.2 t ht
    exact List.elem_iff.mp this
  · intro h
    refine ⟨h.1, fun t ht => ?_⟩
    exact List.elem_iff.mpr (h.2 t ht)

theorem nodup_interIds : ∀ (sets : List (List Nat)), (interIds sets).Nodup := by
  intro sets
  match sets with
  | [] => simp [interIds]
  | s :: rest => exact (List.nodup_dedup s).filter _

theorem mem_foldl_insertTermRow : ∀ (pairs : List (Nat × Bytes))
    (acc : List (Nat × Bytes)) (p : Nat × Bytes),
    (p ∈ pairs.foldl insertTermRow acc ↔ p ∈ acc ∨ p ∈ pairs) := by
  intro pairs
  induction pairs with
  | nil => simp
  | cons q qs ih =>
    intro acc p
    simp only [List.foldl_cons, ih, insertTermRow]
    by_cases hq : q ∈ acc
    · rw [if_pos hq]
      constructor
      · intro h
        rcases h with h | h
        · exact Or.inl h
        · exact Or.inr (List.mem_cons_of_mem q h)
      · intro h
        rcases h with h | h
        · exact Or.inl h
        · rcases List.mem_cons.mp h with rfl | h'
          · exact Or.inl hq
          · exact Or.inr h'
    · rw [if_neg hq]
      simp only [List.mem_append, List.mem_singleton, List.mem_cons]
      tauto

theorem filter_nodup_foldl_insertTermRow (q : Nat × Bytes → Bool) :
    ∀ (pairs : List (Nat × Bytes)) (acc : List (Nat × Bytes)),
    (acc.filter q).Nodup → ((pairs.foldl insertTermRow acc).filter q).Nodup := by
  intro pairs
  induction pairs with
  | nil =>
    intro acc h
    exact h
  | cons p ps ih =>
    intro acc h
    simp only [List.foldl_cons, insertTermRow]
    by_cases hp : p ∈ acc
    · rw [if_pos hp]
      exact ih acc h
    · rw [if_neg hp]
      apply ih
      rw [List.filter_append, List.filter_singleton]
      by_cases hq : q p
      · simp only [hq, cond_true]
        apply List.Nodup.append h (List.nodup_singleton p)
        intro a ha hb
        rw [List.mem_singleton] at hb
        subst hb
        exact hp (List.mem_of_mem_filter ha)
      · simp only [Bool.not_eq_true] at hq
        simp only [hq, cond_false]
        simpa using h

/-- C6: for every DEK the two session subkeys are distinct, because the two
derivations use the two distinct fixed context labels under the fast KDF. -/
theorem claim_C6_key_separation (dek : Bytes) :
    (derive_session_keys dek).1 ≠ (derive_session_keys dek).2 := by
  intro h
  simp only [derive_session_keys] at h
  obtain ⟨-, hinfo, -⟩ := hkdf_derive_inj h
  have hne : HKDF_INFO_ENC ≠ HKDF_INFO_HMAC := by decide
  exact hne hinfo

/-- C8: tokenization is deterministic; the token list is invariant under
lowercasing the input and under changing only non-word characters (replacing
one nonempty separator segment by another, and adding or removing leading or
trailing separator segments); the Storm example holds; empty fragments are
dropped; and across a separator the token set is the union of the two sides,
hence order- and duplicate-insensitive as a set. -/
theorem claim_C8_tokenize (s s1 s2 p q : Str)
    (hp : ∀ c ∈ p, isWordCh c = false) (hq : ∀ c ∈ q, isWordCh c = false)
    (hpne : p ≠ []) (hqne : q ≠ []) :
    normalize_tokens s = normalize_tokens s ∧
    normalize_tokens (s.map lowerCh) = normalize_tokens s ∧
    normalize_tokens (s1 ++ p ++ s2) = normalize_tokens (s1 ++ q ++ s2) ∧
    normalize_tokens (s ++ p) = normalize_tokens s ∧
    normalize_tokens (p ++ s) = normalize_tokens s ∧
    normalize_tokens (str "Storm!") = normalize_tokens (str "storm") ∧
    (∀ t ∈ normalize_tokens s, t ≠ []) ∧
    (normalize_tokens (s1 ++ [32] ++ s2)).toFinset =
      (normalize_tokens s1).toFinset ∪ (normalize_tokens s2).toFinset := by
  refine ⟨rfl, normalize_tokens_lower s,
    normalize_tokens_sep_replace s1 s2 p q hp hq hpne hqne,
    normalize_tokens_append_sep s p hp,
    normalize_tokens_sep_append s p hp,
    by decide,
    fun t ht => normalize_tokens_ne_nil s t ht, ?_⟩
  rw [normalize_tokens_split s1 s2 [32] (by decide) (by decide)]
  simp

theorem claim_C8_tokenize_witness :
    normalize_tokens (str "Ab c" ++ str "!") = normalize_tokens (str "Ab c") ∧
    normalize_tokens (str "Storm!") = normalize_tokens (str "storm") := by
  have h := claim_C8_tokenize (str "Ab c") (str "x") (str "y") (str "!") (str "?")
    (by decide) (by decide) (by decide) (by decide)
  exact ⟨h.2.2.2.1, h.2.2.2.2.2.1⟩

/-- Tampering with any single byte of a well-formed AEAD ciphertext makes
decryption fail: the length byte is caught by a length mismatch of the tag,
a body byte by tag injectivity in the body, and a tag byte by the stored tag
no longer matching the recomputed one. -/
theorem aesgcm_decrypt_set_ne (key nonce aad pt : Bytes) (i v : Nat)
    (hi : i < (pt.length :: (pt ++ gcmTagBytes key nonce aad pt)).length)
    (hv : v ≠ (pt.length :: (pt ++ gcmTagBytes key nonce aad pt))[i]) :
    aesgcm_decrypt key nonce
      ((pt.length :: (pt ++ gcmTagBytes key nonce aad pt)).set i v) aad
      = .error .decryptionFailure := by
  cases i with
  | zero =>
    have hv0 : v ≠ pt.length := by simpa using hv
    have hneg : ¬ ((pt ++ gcmTagBytes key nonce aad pt).drop v
        = gcmTagBytes key nonce aad ((pt ++ gcmTagBytes key nonce aad pt).take v)) := by
      intro heq
      have hlen := congrArg List.length heq
      simp only [List.length_drop, List.length_take, List.length_append,
        gcmTagBytes_length] at hlen
      omega
    simp only [List.set_cons_zero, aesgcm_decrypt, if_neg hneg]
  | succ j =>
    have hj : j < (pt ++ gcmTagBytes key nonce aad pt).length := by
      simpa using hi
    have hv' : v ≠ (pt ++ gcmTagBytes key nonce aad pt)[j] := by
      simpa using hv
    rw [List.set_cons_succ]
    by_cases hcase : j < pt.length
    · rw [List.set_append_left j v hcase]
      have hvj : v ≠ pt[j] := by
        rw [List.getElem_append_left hcase] at hv'
        exact hv'
      have hlen_set : (pt.set j v).length = pt.length := List.length_set pt j v
      have hneg : ¬ ((pt.set j v ++ gcmTagBytes key nonce aad pt).drop pt.length
          = gcmTagBytes key nonce aad
            ((pt.set j v ++ gcmTagBytes key nonce aad pt).take pt.length)) := by
        intro heq
        rw [List.take_left' hlen_set, List.drop_left' hlen_set] at heq
        obtain ⟨-, -, -, hbody⟩ := gcmTagBytes_inj heq
        have h1 : pt[j]? = (pt.set j v)[j]? := congrArg (fun l => l[j]?) hbody
        rw [List.getElem?_eq_getElem hcase, List.getElem?_set_self hcase] at h1
        exact hvj (Option.some.inj h1).symm
      simp only [aesgcm_decrypt, if_neg hneg]
    · have hge : pt.length ≤ j := Nat.le_of_not_lt hcase
      rw [List.set_append_right j v hge]
      have hd : j - pt.length < (gcmTagBytes key nonce aad pt).length := by
        rw [List.length_append] at hj
        omega
      have hvj : v ≠ (gcmTagBytes key nonce aad pt)[j - pt.length] := by
        rw [List.getElem_append_right hge] at hv'
        exact hv'
      have hlen_setT : ((gcmTagBytes key nonce aad pt).set (j - pt.length) v).length
          = (gcmTagBytes key nonce aad pt).length :=
        List.length_set (gcmTagBytes key nonce aad pt) (j - pt.length) v
      have hneg : ¬ ((pt ++ (gcmTagBytes key nonce aad pt).set (j - pt.length) v).drop pt.length
          = gcmTagBytes key nonce aad
            ((pt ++ (gcmTagBytes key nonce aad pt).set (j - pt.length) v).take pt.length)) := by
        intro heq
        rw [List.take_left, List.drop_left] at heq
        have h1 : ((gcmTagBytes key nonce aad pt).set (j - pt.length) v)[j - pt.length]?
            = (gcmTagBytes key nonce aad pt)[j - pt.length]? :=
          congrArg (fun l => l[j - pt.length]?) heq
        rw [List.getElem?_set_self hd, List.getElem?_eq_getElem hd] at h1
        exact hvj (Option.some.inj h1)
      simp only [aesgcm_decrypt, if_neg hneg]

theorem aesgcm_decrypt_wrong_key (key key2 nonce aad pt : Bytes) (hk : key2 ≠ key) :
    aesgcm_decrypt key2 nonce (pt.length :: (pt ++ gcmTagBytes key nonce aad pt)) aad
      = .error .decryptionFailure := by
  have hneg : ¬ ((pt ++ gcmTagBytes key nonce aad pt).drop pt.length
      = gcmTagBytes key2 nonce aad ((pt ++ gcmTagBytes key nonce aad pt).take pt.length)) := by
    intro heq
    rw [List.take_left, List.drop_left] at heq
    obtain ⟨hk', -, -, -⟩ := gcmTagBytes_inj heq
    exact hk hk'.symm
  simp only [aesgcm_decrypt, if_neg hneg]

theorem aesgcm_decrypt_wrong_aad (key nonce aad aad2 pt : Bytes) (ha : aad2 ≠ aad) :
    aesgcm_decrypt key nonce (pt.length :: (pt ++ gcmTagBytes key nonce aad pt)) aad2
      = .error .decryptionFailure := by
  have hneg : ¬ ((pt ++ gcmTagBytes key nonce aad pt).drop pt.length
      = gcmTagBytes key nonce aad2 ((pt ++ gcmTagBytes key nonce aad pt).take pt.length)) := by
    intro heq
    rw [List.take_left, List.drop_left] at heq
    obtain ⟨-, -, ha', -⟩ := gcmTagBytes_inj heq
    exact ha ha'.symm
  simp only [aesgcm_decrypt, if_neg hneg]

/-- C5: for every key, plaintext and associated data, decrypting the output
of encrypt_field with the same key and aad returns the plaintext; and
changing any single ciphertext byte, the key, or the aad makes decryption
fail with DecryptionFailure. -/
theorem claim_C5_field_roundtrip_tamper (key pt aad : Bytes) (g : Nat) :
    aesgcm_decrypt key (aesgcm_encrypt key pt aad g).1.1
      (aesgcm_encrypt key pt aad g).1.2 aad = .ok pt ∧
    (∀ i, ∀ hi : i < (aesgcm_encrypt key pt aad g).1.2.length, ∀ v : Nat,
      v ≠ (aesgcm_encrypt key pt aad g).1.2[i] →
      aesgcm_decrypt key (aesgcm_encrypt key pt aad g).1.1
        ((aesgcm_encrypt key pt aad g).1.2.set i v) aad
        = .error .decryptionFailure) ∧
    (∀ key2, key2 ≠ key →
      aesgcm_decrypt key2 (aesgcm_encrypt key pt aad g).1.1
        (aesgcm_encrypt key pt aad g).1.2 aad = .error .decryptionFailure) ∧
    (∀ aad2, aad2 ≠ aad →
      aesgcm_decrypt key (aesgcm_encrypt key pt aad g).1.1
        (aesgcm_encrypt key pt aad g).1.2 aad2 = .error .decryptionFailure) := by
  refine ⟨aesgcm_roundtrip key pt aad g, ?_, ?_, ?_⟩
  · intro i hi v hv
    simp only [aesgcm_encrypt] at hi hv ⊢
    exact aesgcm_decrypt_set_ne key [g] aad pt i v hi hv
  · intro key2 hk
    simp only [aesgcm_encrypt]
    exact aesgcm_decrypt_wrong_key key key2 [g] aad pt hk
  · intro aad2 ha
    simp only [aesgcm_encrypt]
    exact aesgcm_decrypt_wrong_aad key [g] aad aad2 pt ha

theorem claim_C5_field_roundtrip_tamper_witness :
    aesgcm_decrypt [7] (aesgcm_encrypt [7] [1, 2] [9] 0).1.1
      (aesgcm_encrypt [7] [1, 2] [9] 0).1.2 [9] = .ok [1, 2] ∧
    aesgcm_decrypt [7] (aesgcm_encrypt [7] [1, 2] [9] 0).1.1
      ((aesgcm_encrypt [7] [1, 2] [9] 0).1.2.set 1 5) [9]
      = .error .decryptionFailure ∧
    aesgcm_decrypt [8] (aesgcm_encrypt [7] [1, 2] [9] 0).1.1
      (aesgcm_encrypt [7] [1, 2] [9] 0).1.2 [9] = .error .decryptionFailure ∧
    aesgcm_decrypt [7] (aesgcm_encrypt [7] [1, 2] [9] 0).1.1
      (aesgcm_encrypt [7] [1, 2] [9] 0).1.2 [8] = .error .decryptionFailure := by
  have h := claim_C5_field_roundtrip_tamper [7] [1, 2] [9] 0
  exact ⟨h.1, h.2.1 1 (by decide) 5 (by decide), h.2.2.1 [8] (by decide),
    h.2.2.2 [8] (by decide)⟩

/-- C2: search tokenizes the query, hashes each token, fetches the id set for
each digest, and returns exactly the intersection (an id is returned iff the
query tokenizes nonempty and the id is indexed under every query token),
sorted by entry id descending with no duplicates; an empty tokenization
yields the empty list. -/
theorem claim_C2_search_semantics (st : Store) (sess : SessionKeys) (query : Str) :
    (normalize_tokens query = [] → search_entries st sess query = []) ∧
    (∀ i : Nat, i ∈ search_entries st sess query ↔
      (normalize_tokens query ≠ [] ∧
       ∀ t ∈ normalize_tokens query,
         i ∈ get_entry_ids_for_term st (hmac_token sess.search_key t))) ∧
    (search_entries st sess query).Pairwise (fun a b => b ≤ a) ∧
    (search_entries st sess query).Nodup := by
  have hfil : (normalize_tokens query).filter (fun t => !t.isEmpty)
      = normalize_tokens query := by
    apply List.filter_eq_self.mpr
    intro a ha
    have h := normalize_tokens_ne_nil query a ha
    simpa using h
  by_cases hq : normalize_tokens query = []
  · have hs : search_entries st sess query = [] := by
      simp [search_entries, hfil, hq]
    rw [hs]
    simp [hq]
  · obtain ⟨t0, rest, hcons⟩ := List.exists_cons_of_ne_nil hq
    have hfil2 : (t0 :: rest).filter (fun t => !t.isEmpty) = t0 :: rest := by
      rw [← hcons]
      exact hfil
    have hs : search_entries st sess query = sortDesc (interIds
        ((get_entry_ids_for_term st (hmac_token sess.search_key t0)) ::
          rest.map (fun t => get_entry_ids_for_term st (hmac_token sess.search_key t)))) := by
      simp only [search_entries, hcons, hfil2, List.isEmpty_cons, Bool.false_eq_true,
        if_false, List.map_cons]
    rw [hs, hcons]
    refine ⟨fun h => absurd h (by simp), ?_, pairwise_sortDesc _,
      nodup_sortDesc _ (nodup_interIds _)⟩
    intro i
    rw [mem_sortDesc, mem_interIds]
    simp only [ne_eq, reduceCtorEq, not_false_eq_true, true_and,
      List.forall_mem_cons, List.forall_mem_map]

/-- A concrete session used by witnesses. -/
def exSess : SessionKeys :=
  { user_id := 1
    username := str "al"
    dek := [5]
    enc_key := hkdf_derive [5] HKDF_INFO_ENC 32
    search_key := hkdf_derive [5] HKDF_INFO_HMAC 32 }

/-- A concrete store with two indexed entries, used by witnesses. -/
def exStore : Store :=
  { users := []
    entries := []
    entry_terms := [(1, hmac_token exSess.search_key (str "storm")),
                    (1, hmac_token exSess.search_key (str "rain")),
                    (2, hmac_token exSess.search_key (str "rain"))]
    next_user_id := 3
    next_entry_id := 3 }

theorem claim_C2_search_semantics_witness :
    search_entries exStore exSess (str "...") = [] ∧
    1 ∈ search_entries exStore exSess (str "rain storm") := by
  refine ⟨(claim_C2_search_semantics exStore exSess (str "...")).1 (by decide), ?_⟩
  exact ((claim_C2_search_semantics exStore exSess (str "rain storm")).2.1 1).mpr
    ⟨by decide, by decide⟩

/-- C7: after update_entry the term rows stored for the entry are exactly the
digests of the tokens of the new title and body under the session search key
(no stale digest survives), and the (entry id, digest) pairs of the entry are
not duplicated. -/
theorem claim_C7_update_entry_index (st : Store) (g : Nat) (sess : SessionKeys)
    (entry_id : Nat) (new_title new_body : Str) :
    (∀ d : Bytes,
      (entry_id, d) ∈ ((update_entry st g sess entry_id new_title new_body).2.1).entry_terms
        ↔ ∃ t ∈ normalize_tokens new_title ++ normalize_tokens new_body,
            d = hmac_token sess.search_key t) ∧
    (((update_entry st g sess entry_id new_title new_body).2.1).entry_terms.filter
      (fun p => p.1 == entry_id)).Nodup := by
  have hterms : ((update_entry st g sess entry_id new_title new_body).2.1).entry_terms
      = (((normalize_tokens new_title ++ normalize_tokens new_body).dedup.map
          (fun t => (entry_id, hmac_token sess.search_key t))).foldl insertTermRow
          (st.entry_terms.filter (fun p => ¬ p.1 = entry_id))) := rfl
  constructor
  · intro d
    rw [hterms, mem_foldl_insertTermRow]
    constructor
    · intro h
      rcases h with h | h
      · exfalso
        have h2 := (List.mem_filter.mp h).2
        simp at h2
      · obtain ⟨t, ht, heq⟩ := List.mem_map.mp h
        refine ⟨t, List.mem_dedup.mp ht, ?_⟩
        exact (congrArg Prod.snd heq).symm
    · intro h
      obtain ⟨t, ht, hd⟩ := h
      right
      apply List.mem_map.mpr
      refine ⟨t, List.mem_dedup.mpr ht, ?_⟩
      rw [hd]
  · rw [hterms]
    apply filter_nodup_foldl_insertTermRow
    have hnil : ((st.entry_terms.filter (fun p => ¬ p.1 = entry_id)).filter
        (fun p => p.1 == entry_id)) = [] := by
      rw [List.filter_eq_nil_iff]
      intro a ha
      have h2 := (List.mem_filter.mp ha).2
      simp only [decide_eq_true_eq] at h2
      simp [h2]
    rw [hnil]
    exact List.nodup_nil

theorem claim_C6_key_separation_witness :
    (derive_session_keys [0]).1 ≠ (derive_session_keys [0]).2 :=
  claim_C6_key_separation [0]

/-- A concrete store with one registered user, used by witnesses. -/
def exUserStore : Store :=
  { users := [{ id := 1
                username := str "al"
                pwd_hash := PH_hash (str "old") 90
                kek_salt := [6]
                dek_wrapped := [7]
                dek_wrap_nonce := [8]
                security_question := str "pet"
                security_answer_hash := PH_hash (str "Rex") 91
                created_at := str "t" }]
    entries := []
    entry_terms := []
    next_user_id := 2
    next_entry_id := 1 }

/-- C9: register fails with ValidationError on an empty or whitespace-only
question or answer without persisting anything, and fails with DuplicateUser
on an existing username leaving the store unchanged. -/
theorem claim_C9_register_validation_duplicate (st : Store) (g : Nat)
    (username password question answer created_at : Str) :
    ((isBlank question ∨ isBlank answer) →
      register_user st g username password question answer created_at
        = (.error .validationError, st, g + 1)) ∧
    (¬ (isBlank question ∨ isBlank answer) →
      (∃ u ∈ st.users, u.username = username) →
      register_user st g username password question answer created_at
        = (.error .duplicateUser, st, g + 5)) := by
  constructor
  · intro h
    simp only [register_user, if_pos h]
  · intro h hdup
    have hany : st.users.any (fun u => u.username == username) = true := by
      rw [List.any_eq_true]
      obtain ⟨u, hu, he⟩ := hdup
      exact ⟨u, hu, by simp [he]⟩
    simp only [register_user, if_neg h, insert_user, hany, if_pos]
    rfl

theorem claim_C9_register_validation_duplicate_witness :
    register_user exUserStore 0 (str "al") (str "pw") (str " ") (str "Rex") (str "t0")
      = (.error .validationError, exUserStore, 1) ∧
    register_user exUserStore 0 (str "al") (str "pw") (str "pet") (str "Rex") (str "t0")
      = (.error .duplicateUser, exUserStore, 5) := by
  constructor
  · exact (claim_C9_register_validation_duplicate exUserStore 0 (str "al") (str "pw")
      (str " ") (str "Rex") (str "t0")).1 (by decide)
  · exact (claim_C9_register_validation_duplicate exUserStore 0 (str "al") (str "pw")
      (str "pet") (str "Rex") (str "t0")).2 (by decide)
      ⟨{ id := 1
         username := str "al"
         pwd_hash := PH_hash (str "old") 90
         kek_salt := [6]
         dek_wrapped := [7]
         dek_wrap_nonce := [8]
         security_question := str "pet"
         security_answer_hash := PH_hash (str "Rex") 91
         created_at := str "t" }, by decide, rfl⟩

/-- A concrete store with one entry and one term row, used by witnesses. -/
def exEntryStore : Store :=
  { users := []
    entries := [{ id := 2
                  user_id := 1
                  created_at := str "t0"
                  title_nonce := [1]
                  title_ct := [2]
                  body_nonce := [3]
                  body_ct := [4]
                  map_nonce := none
                  map_ct := none
                  map_format := some (str "ascii") }]
    entry_terms := [(2, [9])]
    next_user_id := 2
    next_entry_id := 3 }

/-- C10: update_entry changes only the title and body ciphertext fields of
the addressed entry and the term rows of that entry: the id, owner, creation
time and map payload of every entry row are unchanged, rows of other entries
are untouched, the users table is untouched, and term rows of other entries
are preserved. -/
theorem claim_C10_update_entry_frame (st : Store) (g : Nat) (sess : SessionKeys)
    (entry_id : Nat) (new_title new_body : Str) :
    (((update_entry st g sess entry_id new_title new_body).2.1).users = st.users) ∧
    (((update_entry st g sess entry_id new_title new_body).2.1).entries.length
      = st.entries.length) ∧
    (∀ i, ∀ h1 : i < st.entries.length,
      ∀ h2 : i < ((update_entry st g sess entry_id new_title new_body).2.1).entries.length,
      (((update_entry st g sess entry_id new_title new_body).2.1).entries[i]).id
          = (st.entries[i]).id ∧
      (((update_entry st g sess entry_id new_title new_body).2.1).entries[i]).user_id
          = (st.entries[i]).user_id ∧
      (((update_entry st g sess entry_id new_title new_body).2.1).entries[i]).created_at
          = (st.entries[i]).created_at ∧
      (((update_entry st g sess entry_id new_title new_body).2.1).entries[i]).map_nonce
          = (st.entries[i]).map_nonce ∧
      (((update_entry st g sess entry_id new_title new_body).2.1).entries[i]).map_ct
          = (st.entries[i]).map_ct ∧
      (((update_entry st g sess entry_id new_title new_body).2.1).entries[i]).map_format
          = (st.entries[i]).map_format ∧
      (¬ ((st.entries[i]).id = entry_id ∧ (st.entries[i]).user_id = sess.user_id) →
        ((update_entry st g sess entry_id new_title new_body).2.1).entries[i]
          = st.entries[i])) ∧
    (∀ p : Nat × Bytes, p.1 ≠ entry_id →
      (p ∈ ((update_entry st g sess entry_id new_title new_body).2.1).entry_terms
        ↔ p ∈ st.entry_terms)) := by
  have hentries : ((update_entry st g sess entry_id new_title new_body).2.1).entries
      = st.entries.map (fun e =>
          if e.id = entry_id ∧ e.user_id = sess.user_id then
            { e with
              title_nonce := (aesgcm_encrypt sess.enc_key new_title sess.username g).1.1
              title_ct := (aesgcm_encrypt sess.enc_key new_title sess.username g).1.2
              body_nonce := (aesgcm_encrypt sess.enc_key new_body sess.username
                (aesgcm_encrypt sess.enc_key new_title sess.username g).2).1.1
              body_ct := (aesgcm_encrypt sess.enc_key new_body sess.username
                (aesgcm_encrypt sess.enc_key new_title sess.username g).2).1.2 }
          else e) := rfl
  have hterms : ((update_entry st g sess entry_id new_title new_body).2.1).entry_terms
      = (((normalize_tokens new_title ++ normalize_tokens new_body).dedup.map
          (fun t => (entry_id, hmac_token sess.search_key t))).foldl insertTermRow
          (st.entry_terms.filter (fun p => ¬ p.1 = entry_id))) := rfl
  refine ⟨rfl, by rw [hentries, List.length_map], ?_, ?_⟩
  · intro i h1 h2
    simp only [hentries, List.getElem_map]
    by_cases hc : (st.entries[i]).id = entry_id ∧ (st.entries[i]).user_id = sess.user_id
    · rw [if_pos hc]
      exact ⟨rfl, rfl, rfl, rfl, rfl, rfl, fun hn => absurd hc hn⟩
    · rw [if_neg hc]
      exact ⟨rfl, rfl, rfl, rfl, rfl, rfl, fun _ => rfl⟩
  · intro p hp
    rw [hterms, mem_foldl_insertTermRow]
    constructor
    · intro h
      rcases h with h | h
      · exact (List.mem_filter.mp h).1
      · exfalso
        obtain ⟨t, -, heq⟩ := List.mem_map.mp h
        exact hp (congrArg Prod.fst heq).symm
    · intro h
      left
      rw [List.mem_filter]
      exact ⟨h, by simpa using hp⟩

theorem claim_C10_update_entry_frame_witness :
    ((update_entry exEntryStore 0 exSess 1 (str "a") (str "b")).2.1).users
      = exEntryStore.users ∧
    ((2, [9]) ∈ ((update_entry exEntryStore 0 exSess 1 (str "a") (str "b")).2.1).entry_terms
      ↔ (2, [9]) ∈ exEntryStore.entry_terms) ∧
    ((update_entry exEntryStore 0 exSess 1 (str "a") (str "b")).2.1).entries[0]?
      = exEntryStore.entries[0]? := by
  have h := claim_C10_update_entry_frame exEntryStore 0 exSess 1 (str "a") (str "b")
  refine ⟨h.1, h.2.2.2 (2, [9]) (by decide), ?_⟩
  have h0 := (h.2.2.1 0 (by decide) (by decide)).2.2.2.2.2.2 (by decide)
  rw [List.getElem?_eq_getElem (by decide),
    List.getElem?_eq_getElem (l := exEntryStore.entries) (by decide), h0]

/-- The user row inserted by a successful registration started at entropy
counter g. -/
def regRow (st : Store) (g : Nat)
    (username password question answer created_at : Str) : UserRow :=
  { id := st.next_user_id
    username := username
    pwd_hash := PH_hash password g
    kek_salt := [g + 3]
    dek_wrapped := (aesgcm_encrypt (hkdf_derive (scrypt_kdf password [g + 3] 32)
      WRAP_INFO 32) [g + 2] username (g + 4)).1.2
    dek_wrap_nonce := [g + 4]
    security_question := question
    security_answer_hash := PH_hash answer (g + 1)
    created_at := created_at }

/-- C4: after a successful registration, login with the same password returns
the session whose DEK is the one generated at registration (the wrapped DEK
round-trips) with both subkeys derived from it; login with any other
password fails with AuthenticationFailure; login for an unregistered
username fails with UserNotFound. -/
theorem claim_C4_register_login (st : Store) (g : Nat)
    (username password question answer created_at : Str)
    (hq : ¬ (isBlank question ∨ isBlank answer))
    (hnew : get_user_by_username st username = none) :
    (register_user st g username password question answer created_at).1 = .ok () ∧
    login_user (register_user st g username password question answer created_at).2.1
        username password
      = .ok { user_id := st.next_user_id
              username := username
              dek := [g + 2]
              enc_key := hkdf_derive [g + 2] HKDF_INFO_ENC 32
              search_key := hkdf_derive [g + 2] HKDF_INFO_HMAC 32 } ∧
    (∀ p2 : Str, p2 ≠ password →
      login_user (register_user st g username password question answer created_at).2.1
        username p2 = .error .authenticationFailure) ∧
    (∀ u2 pw2 : Str,
      get_user_by_username
        (register_user st g username password question answer created_at).2.1 u2 = none →
      login_user (register_user st g username password question answer created_at).2.1
        u2 pw2 = .error .userNotFound) := by
  have hnone : st.users.find? (fun u => u.username == username) = none := hnew
  have hany : ¬ (st.users.any (fun u => u.username == username) = true) := by
    rw [List.any_eq_true]
    intro hcon
    obtain ⟨u, hu, hb⟩ := hcon
    exact absurd hb (by simpa using List.find?_eq_none.mp hnone u hu)
  have hreg : register_user st g username password question answer created_at
      = (.ok (), ⟨st.users ++ [regRow st g username password question answer created_at],
          st.entries, st.entry_terms, st.next_user_id + 1, st.next_entry_id⟩, g + 5) := by
    simp only [register_user, insert_user]
    rw [if_neg hq, if_neg hany]
    rfl
  have hrow : (st.users ++ [regRow st g username password question answer created_at]).find?
        (fun u => u.username == username)
      = some (regRow st g username password question answer created_at) := by
    rw [List.find?_append, hnone]
    simp [regRow]
  rw [hreg]
  refine ⟨rfl, ?_, ?_, ?_⟩
  · have hd : aesgcm_decrypt (hkdf_derive (scrypt_kdf password [g + 3] 32) WRAP_INFO 32)
        [g + 4]
        (1 :: (g + 2) :: gcmTagBytes (hkdf_derive (scrypt_kdf password [g + 3] 32)
          WRAP_INFO 32) [g + 4] username [g + 2])
        username = .ok [g + 2] := by
      simp [aesgcm_decrypt]
    simp [login_user, get_user_by_username, hnone, regRow, aesgcm_encrypt,
      PH_verify, PH_hash, hd]
  · intro p2 hp2
    have hne : ¬ (password = p2) := fun he => hp2 he.symm
    simp [login_user, get_user_by_username, hnone, regRow, aesgcm_encrypt,
      PH_verify, PH_hash, hne]
  · intro u2 pw2 hu2
    simp [login_user, hu2]

/-- An empty store, used by witnesses. -/
def emptyStore : Store :=
  { users := []
    entries := []
    entry_terms := []
    next_user_id := 1
    next_entry_id := 1 }

theorem claim_C4_register_login_witness :
    login_user (register_user emptyStore 0 (str "alice") (str "Pw1") (str "pet name")
        (str "Rex") (str "t0")).2.1 (str "alice") (str "Pw1")
      = .ok { user_id := 1
              username := str "alice"
              dek := [2]
              enc_key := hkdf_derive [2] HKDF_INFO_ENC 32
              search_key := hkdf_derive [2] HKDF_INFO_HMAC 32 } ∧
    login_user (register_user emptyStore 0 (str "alice") (str "Pw1") (str "pet name")
        (str "Rex") (str "t0")).2.1 (str "alice") (str "wrong")
      = .error .authenticationFailure ∧
    login_user (register_user emptyStore 0 (str "alice") (str "Pw1") (str "pet name")
        (str "Rex") (str "t0")).2.1 (str "bob") (str "x") = .error .userNotFound := by
  have h := claim_C4_register_login emptyStore 0 (str "alice") (str "Pw1") (str "pet name")
    (str "Rex") (str "t0") (by decide) (by decide)
  exact ⟨h.2.1, h.2.2.1 (str "wrong") (by decide), h.2.2.2 (str "bob") (str "x") (by decide)⟩

/-- find? by username commutes with a row map that preserves usernames. -/
theorem find?_users_map_username (users : List UserRow) (f : UserRow → UserRow)
    (hf : ∀ u, (f u).username = u.username) (username : Str) :
    (users.map f).find? (fun u => u.username == username)
      = (users.find? (fun u => u.username == username)).map f := by
  induction users with
  | nil => rfl
  | cons a l ih =>
    rw [List.map_cons]
    by_cases h : (a.username == username) = true
    · have hfa : ((f a).username == username) = true := by
        rw [hf]
        exact h
      simp only [List.find?, hfa, h]
      rfl
    · have h2 : (a.username == username) = false := by simpa using h
      have hfa : ((f a).username == username) = false := by
        rw [hf]
        exact h2
      simp only [List.find?, hfa, h2]
      exact ih

/-- A concrete user row for the reset evaluation. -/
def exResetRow : UserRow :=
  { id := 1
    username := str "al"
    pwd_hash := PH_hash (str "old") 90
    kek_salt := [6]
    dek_wrapped := [7]
    dek_wrap_nonce := [8]
    security_question := str "pet"
    security_answer_hash := PH_hash (str "Rex") 91
    created_at := str "t" }

/-- A concrete store with one user owning one indexed entry, for the reset
evaluation. -/
def exResetStore : Store :=
  { users := [exResetRow]
    entries := [{ id := 1
                  user_id := 1
                  created_at := str "t0"
                  title_nonce := [1]
                  title_ct := [2]
                  body_nonce := [3]
                  body_ct := [4]
                  map_nonce := none
                  map_ct := none
                  map_format := some (str "ascii") }]
    entry_terms := [(1, [9])]
    next_user_id := 2
    next_entry_id := 2 }

/-- C3 (code bug, evaluated at the failing input): at a store where user 1
owns entry 1 indexed by term row (1, [9]), reset with the correct answer
succeeds, deletes the entry rows, stores a freshly wrapped DEK (login with
the new password returns the generated DEK, the old password fails), and a
wrong answer mutates nothing — but the orphan term row (1, [9]) survives,
because the DELETE connection never enables foreign-key enforcement and the
declared cascade does not fire, contradicting the claim and the db.py
docstrings. -/
theorem claim_C3_reset_orphan_terms :
    (reset_password_with_security_answer exResetStore 10 (str "al") (str "Rex")
        (str "new")).1 = .ok () ∧
    ((reset_password_with_security_answer exResetStore 10 (str "al") (str "Rex")
        (str "new")).2.1).entries = [] ∧
    ((reset_password_with_security_answer exResetStore 10 (str "al") (str "Rex")
        (str "new")).2.1).entry_terms = [(1, [9])] ∧
    login_user ((reset_password_with_security_answer exResetStore 10 (str "al")
        (str "Rex") (str "new")).2.1) (str "al") (str "new")
      = .ok { user_id := 1
              username := str "al"
              dek := [10]
              enc_key := hkdf_derive [10] HKDF_INFO_ENC 32
              search_key := hkdf_derive [10] HKDF_INFO_HMAC 32 } ∧
    login_user ((reset_password_with_security_answer exResetStore 10 (str "al")
        (str "Rex") (str "new")).2.1) (str "al") (str "old")
      = .error .authenticationFailure ∧
    reset_password_with_security_answer exResetStore 10 (str "al") (str "bad")
        (str "new")
      = (.error .authenticationFailure, exResetStore, 10) := by
  decide

/-- The migration loop never touches the users table, whichever way it
ends. -/
theorem migrate_entries_users (uname : Str) (uid : Nat)
    (old_enc new_enc new_search : Bytes) :
    ∀ (rows : List EntryRow) (st : Store) (g : Nat),
      ((migrate_entries uname uid old_enc new_enc new_search rows st g).2.1).users
        = st.users := by
  intro rows
  induction rows with
  | nil =>
    intro st g
    rfl
  | cons e rest ih =>
    intro st g
    simp only [migrate_entries]
    cases hd1 : aesgcm_decrypt old_enc e.title_nonce e.title_ct uname with
    | error er => rfl
    | ok title =>
      cases hd2 : aesgcm_decrypt old_enc e.body_nonce e.body_ct uname with
      | error er => rfl
      | ok body =>
        cases hmm : migrate_map uname old_enc new_enc e g with
        | error er => rfl
        | ok mm => exact ih _ _

/-- C1 (amended): whenever change_password_logged_in returns an error, the
users table, and with it the credential row (password hash, KEK salt,
wrapped DEK, wrap nonce), is not updated.  The per-entry writes that already
committed are not rolled back, so entry and term rows may be partially
migrated; see the counterexample. -/
theorem claim_C1_amended_no_credential_swap_on_error (st : Store) (g : Nat)
    (sess : SessionKeys) (current_password new_password : Str) (er : Err) :
    (change_password_logged_in st g sess current_password new_password).1 = .error er →
    ((change_password_logged_in st g sess current_password new_password).2.1).users
      = st.users := by
  simp only [change_password_logged_in]
  split
  · intro _
    rfl
  · split
    · intro _
      rfl
    · split
      · intro _
        rfl
      · split
        · intro _
          rfl
        · split
          · rename_i st1 g1 heq
            intro _
            have hu := congrArg (fun t => t.2.1.users) heq
            simp only at hu
            rw [← hu]
            exact migrate_entries_users _ _ _ _ _ _ _ _
          · intro hcon
            exact absurd hcon (by simp)

/-- The old encryption key of the counterexample session (DEK [5]). -/
def cpOldEnc : Bytes := hkdf_derive [5] HKDF_INFO_ENC 32

/-- The counterexample session: user 1, logged in with DEK [5]. -/
def cpSess : SessionKeys :=
  { user_id := 1
    username := str "al"
    dek := [5]
    enc_key := cpOldEnc
    search_key := hkdf_derive [5] HKDF_INFO_HMAC 32 }

/-- Counterexample store: user 1 with two entries.  Entry 1 (created_at t2,
the newest, hence first under ORDER BY created_at DESC) is well-formed under
the old encryption key; entry 2 (created_at t1, processed second) has a
corrupted title ciphertext so its migration decrypt fails after entry 1 has
already been rewritten. -/
def cpStore : Store :=
  { users := [{ id := 1
                username := str "al"
                pwd_hash := PH_hash (str "a") 50
                kek_salt := [6]
                dek_wrapped := [7]
                dek_wrap_nonce := [8]
                security_question := str "pet"
                security_answer_hash := PH_hash (str "Rex") 51
                created_at := str "t" }]
    entries := [{ id := 1
                  user_id := 1
                  created_at := str "t2"
                  title_nonce := [30]
                  title_ct := (str "x").length ::
                    (str "x" ++ gcmTagBytes cpOldEnc [30] (str "al") (str "x"))
                  body_nonce := [31]
                  body_ct := (str "y").length ::
                    (str "y" ++ gcmTagBytes cpOldEnc [31] (str "al") (str "y"))
                  map_nonce := none
                  map_ct := none
                  map_format := some (str "ascii") },
                { id := 2
                  user_id := 1
                  created_at := str "t1"
                  title_nonce := [32]
                  title_ct := [0]
                  body_nonce := [33]
                  body_ct := [0]
                  map_nonce := none
                  map_ct := none
                  map_format := some (str "ascii") }]
    entry_terms := [(1, hmac_token cpSess.search_key (str "x")),
                    (1, hmac_token cpSess.search_key (str "y"))]
    next_user_id := 2
    next_entry_id := 3 }

/-- C1 (counterexample): the loop visits entry 1 first (newest created_at)
and migrates it, then fails decrypting entry 2; change_password_logged_in
returns the error and leaves the credential row untouched, but entry 1 is
already re-encrypted and no longer decrypts under the old encryption key —
the durable state is not entirely on the old key set, so the claim as
stated is false. -/
theorem claim_C1_counterexample :
    (change_password_logged_in cpStore 20 cpSess (str "a") (str "b")).1
      = .error .decryptionFailure ∧
    ((change_password_logged_in cpStore 20 cpSess (str "a") (str "b")).2.1).users
      = cpStore.users ∧
    (cpStore.entries.head?).map
        (fun e => aesgcm_decrypt cpOldEnc e.title_nonce e.title_ct (str "al"))
      = some (.ok (str "x")) ∧
    (((change_password_logged_in cpStore 20 cpSess (str "a") (str "b")).2.1).entries.head?).map
        (fun e => decide
          (aesgcm_decrypt cpOldEnc e.title_nonce e.title_ct (str "al")
            = .error .decryptionFailure))
      = some true := by
  refine ⟨by decide, by decide, by decide, by decide⟩

theorem claim_C1_amended_no_credential_swap_on_error_witness :
    ((change_password_logged_in cpStore 20 cpSess (str "a") (str "b")).2.1).users
      = cpStore.users :=
  claim_C1_amended_no_credential_swap_on_error cpStore 20 cpSess (str "a") (str "b")
    .decryptionFailure (by decide)
